import Mathlib



/-!
Shallow embedding of the SAP extractor core (`src/sap_client/client.py`,
`src/sap_client/data_source_model.py`) and proofs about it.

Conventions of the embedding:
* Python strings are Lean `String`s; Python string comparison (lexicographic
  on code points) is the boolean `strLe` below.
* Fallible Python code (raising `SapClientException` / `IndexError`) is
  modelled with `Except String`.
* The asynchronous round of `batch_size` concurrent requests is modelled by
  processing the round's requests in sequence: each request's effect on the
  shared client state (`stop` flag, `delta_values` list) is an append or a
  monotone flag update, so the sequential order models one completion order.
* The generator `_fetch_paging_offset` loops `while not self.stop`; since
  Lean functions are total, the loop is run with an explicit round budget
  (`fuel`): a result `none` means the budget was exhausted with the loop
  still running, `some r` means the loop finished (normally or with an
  exception) within the budget.
-/

/-- Lexicographic comparison of code-point lists, as Python compares strings:
equal heads are skipped, otherwise the head code points decide. -/
def lexLe : List Char → List Char → Bool
  | [], _ => true
  | _ :: _, [] => false
  | a :: as, b :: bs => if a = b then lexLe as bs else decide (a.toNat < b.toNat)

/-- Python string `<=` (lexicographic on code points). -/
def strLe (a b : String) : Bool :=
  lexLe a.data b.data

/-- Binary maximum of two Python strings, `b` winning ties (as Python's
`max`, which keeps the first of equal elements, applied left-to-right). -/
def pyMaxStr (a b : String) : String :=
  if strLe b a then a else b

/-- Python `max` over a list of strings; Python raises on an empty list, the
embedding never applies this to one (the empty case returns `""`). -/
def pyMax : List String → String
  | [] => ""
  | x :: xs => xs.foldl pyMaxStr x

/-- Python `str.ljust(n, "0")`: pad on the right with `'0'` up to length
`n` (unchanged when the string is already at least that long). -/
def ljustZero (s : String) (n : Nat) : String :=
  s ++ String.mk (List.replicate (n - s.length) '0')

/-- Line `max_length = max(len(str(value)) for value in values)` of
`SAPClient._max_timestamp_or_id`: the greatest rendered length. -/
def normLength (str : α → String) (values : List α) : Nat :=
  (values.map fun x => (str x).length).foldl max 0

/-- Line `normalized_data = [str(value).ljust(max_length, "0") ...]` of
`SAPClient._max_timestamp_or_id`, for one value. -/
def normalizeValue (str : α → String) (values : List α) (x : α) : String :=
  ljustZero (str x) (normLength str values)

/-- Python `list.index`: the index of the first occurrence. -/
def listIndex [DecidableEq α] (a : α) : List α → Nat
  | [] => 0
  | b :: l => if b = a then 0 else listIndex a l + 1

/-- Embedding of `SAPClient._max_timestamp_or_id`: `None` on an empty list,
otherwise the original value sitting at the first index at which the
zero-right-padded rendering attains the lexicographic maximum
(`values[normalized_data.index(max(normalized_data))]`). The parameter
`str` renders a value as Python `str` does. -/
def maxTimestampOrId (str : α → String) : List α → Option α
  | [] => none
  | v :: vs =>
    let values := v :: vs
    let normalized := values.map (normalizeValue str values)
    let maxNormalized := pyMax normalized
    some (values.getD (listIndex maxNormalized normalized) v)

/-- Sign prefix of a Python numeric literal: `(negative, remainder)`. -/
def splitSign : List Char → Bool × List Char
  | '-' :: r => (true, r)
  | '+' :: r => (false, r)
  | cs => (false, cs)

/-- Longest digit prefix and the remainder. -/
def takeDigits : List Char → List Char × List Char
  | [] => ([], [])
  | c :: cs =>
    if c.isDigit then
      let (ds, r) := takeDigits cs
      (c :: ds, r)
    else ([], c :: cs)

/-- Value of a sequence of decimal digits. -/
def digitsToNat (ds : List Char) : Nat :=
  ds.foldl (fun a c => a * 10 + (c.toNat - 48)) 0

/-- Models Python `int(s)` on a string argument: an optional sign followed
by one or more decimal digits (the exotic forms — surrounding whitespace
and digit-group underscores — are outside the model). -/
def pyParseInt (s : String) : Option Int :=
  let (neg, body) := splitSign s.data
  let (ds, rest) := takeDigits body
  if ds = [] ∨ rest ≠ [] then none
  else some (if neg then -(digitsToNat ds : Int) else (digitsToNat ds : Int))

/-- Optional exponent suffix `e`/`E` with an optional sign and mandatory
digits; `some 0` when absent, `none` when malformed. -/
def parseExp : List Char → Option Int
  | [] => some 0
  | e :: r =>
    if e = 'e' ∨ e = 'E' then
      let (neg, r') := splitSign r
      let (ds, rest) := takeDigits r'
      if ds = [] ∨ rest ≠ [] then none
      else some (if neg then -(digitsToNat ds : Int) else (digitsToNat ds : Int))
    else none

/-- Models Python `float(s)` on a string argument, as an exact rational:
an optional sign, then digits with an optional decimal point (at least one
digit on some side of the point), then an optional exponent (the special
forms `inf`/`nan`, whitespace and underscores are outside the model; the
theorems below use only which strings parse, and the parsed value only as
an opaque recorded watermark). -/
def pyParseFloat (s : String) : Option Rat :=
  let (neg, body) := splitSign s.data
  let (ip, rest) := takeDigits body
  match rest with
  | '.' :: r =>
    let (fp, rest2) := takeDigits r
    if ip = [] ∧ fp = [] then none
    else
      match parseExp rest2 with
      | none => none
      | some e =>
        let mant : Rat := (digitsToNat ip : Rat) + (digitsToNat fp : Rat) / ((10 : Rat) ^ fp.length)
        some ((if neg then -mant else mant) * (10 : Rat) ^ e)
  | _ =>
    if ip = [] then none
    else
      match parseExp rest with
      | none => none
      | some e =>
        some ((if neg then -(digitsToNat ip : Rat) else (digitsToNat ip : Rat)) * (10 : Rat) ^ e)

/-- A value that can sit in `SAPClient.delta_values`: the configured delta
pointer restored from the state file (an int or a string) or a pointer
parsed from a response (an int or a float). -/
inductive DeltaV where
  | int (n : Int)
  | float (q : Rat)
  | str (s : String)
deriving DecidableEq

/-- Python `str()` of a delta value: ints and strings render as Python
renders them; the rendering of a float is never inspected by a theorem
below (it only matters that the value is recorded), so it is modelled by
the rational's default rendering. -/
def pyStrDelta : DeltaV → String
  | .int n => toString n
  | .float q => toString q
  | .str s => s

/-- One column dict of a COLUMNS specification, `data_source_model.Column`:
`POSITION` orders columns, `COLUMN_ALIAS` names them; the remaining fields
ride along. -/
structure Column where
  POSITION : Int
  COLUMN_ALIAS : String
  COLUMN_TEXT : String := ""
  TYPE : String := ""
  LENGTH : Int := 0
  DECIMALS : Int := 0
  KEY : Bool := false
deriving DecidableEq

/-- Stable insertion in front of the first strictly greater `POSITION`.
Inserting before the first strictly greater key keeps equal keys in their
original relative order, which is what Python's stable `sorted` does. -/
def insertByPosition (a : Column) : List Column → List Column
  | [] => [a]
  | b :: l => if a.POSITION ≤ b.POSITION then a :: b :: l else b :: insertByPosition a l

/-- Python `sorted(columns, key=lambda x: x["POSITION"])` (stable). -/
def sortByPosition : List Column → List Column
  | [] => []
  | a :: l => insertByPosition a (sortByPosition l)

/-- Embedding of `SAPClient._get_columns`: the aliases in ascending
`POSITION` order. -/
def getColumns (columnsSpecification : List Column) : List String :=
  (sortByPosition columnsSpecification).map (fun c => c.COLUMN_ALIAS)

/-- Embedding of `SAPClient._process_result`:
`[dict(zip(columns, row)) for row in rows]`, a dict as an assoc list. -/
def processResult (rows : List (List V)) (columns : List String) : List (List (String × V)) :=
  rows.map (fun row => columns.zip row)

/-- A processed row batch. -/
abbrev Batch (V : Type) := List (List (String × V))

/-- One entity dict of a data response (the keys the client reads; a missing
`ROWS` key and `"ROWS": []` are both falsy in the Python code and are both
modelled by `[]`, a missing `DELTA_POINTER` by `none`). -/
structure RespEntity (V : Type) where
  DELTA_POINTER : Option String := none
  COLUMNS : List Column := []
  ROWS : List (List V) := []
deriving DecidableEq

/-- A data response, reduced to `r.get("DATA_SOURCE", {}).get("ENTITIES", [])`. -/
structure Response (V : Type) where
  ENTITIES : List (RespEntity V) := []
deriving DecidableEq

/-- The mutable client fields the fetch loops read and write. -/
structure ClientState where
  stop : Bool
  delta_values : List DeltaV
deriving DecidableEq

/-- Embedding of `SAPClient._set_delta_pointer`: a missing or falsy (empty)
`DELTA_POINTER` is skipped; otherwise the value is parsed as `int`, then as
`float`, and the parse is appended to `delta_values`; when neither parse
succeeds the client raises `SapClientException`. -/
def setDeltaPointer (deltaValues : List DeltaV) (e : RespEntity V) :
    Except String (List DeltaV) :=
  match e.DELTA_POINTER with
  | none => .ok deltaValues
  | some s =>
    if s = "" then .ok deltaValues
    else
      match pyParseInt s with
      | some n => .ok (deltaValues ++ [DeltaV.int n])
      | none =>
        match pyParseFloat s with
        | some q => .ok (deltaValues ++ [DeltaV.float q])
        | none => .error ("Only integer and float " ++ s ++ " values are supported. "
            ++ "Delta pointer received: " ++ s)

/-- Embedding of `SAPClient._get_and_process` for one page or key-block
request: no entity yields `none` with the state untouched; an entity first
records its delta pointer (possibly raising), then an empty `ROWS` sets the
shared `stop` flag and yields `none`, and non-empty `ROWS` yield the
processed batch. -/
def getAndProcess (st : ClientState) (r : Response V) :
    Except String (ClientState × Option (Batch V)) :=
  match r.ENTITIES with
  | [] => .ok (st, none)
  | e :: _ =>
    match setDeltaPointer st.delta_values e with
    | .error msg => .error msg
    | .ok dv =>
      match e.ROWS with
      | [] => .ok ({ st with delta_values := dv, stop := true }, none)
      | row :: rows => .ok ({ st with delta_values := dv },
          some (processResult (row :: rows) (getColumns e.COLUMNS)))

/-- The batch a response contributes, independent of the client state: the
processed rows of the first entity, or `none` when there is no entity or no
rows. -/
def batchOf (r : Response V) : Option (Batch V) :=
  match r.ENTITIES with
  | [] => none
  | e :: _ =>
    match e.ROWS with
    | [] => none
    | row :: rows => some (processResult (row :: rows) (getColumns e.COLUMNS))

/-- One `asyncio.gather` round: the queued requests, processed in order
against the shared client state (their state updates commute, see the file
header), collecting each request's yielded result. -/
def processRequests (resp : β → Response V) (st : ClientState) :
    List β → Except String (ClientState × List (Option (Batch V)))
  | [] => .ok (st, [])
  | p :: ps =>
    match getAndProcess st (resp p) with
    | .error msg => .error msg
    | .ok (st', b) =>
      match processRequests resp st' ps with
      | .error msg => .error msg
      | .ok (st'', bs) => .ok (st'', b :: bs)

/-- The starting page of `SAPClient._fetch_paging_offset`:
`"page": page if page else 1` with default argument `page = 0`. -/
def startPage (page : Nat) : Nat :=
  if page = 0 then 1 else page

/-- The rounds of `SAPClient._fetch_paging_offset` from a given page: while
the shared `stop` flag is unset, issue `batchSize` requests for consecutive
pages, await them all, and yield every result of the round in order. `fuel`
bounds the number of rounds the total model runs: `none` means the bound
was hit with the loop still running, `some` that the loop finished —
normally (`Except.ok`, with all yielded results concatenated) or by a
raised exception (`Except.error`). -/
def runOffsetRounds (responses : Nat → Response V) (batchSize : Nat) :
    ClientState → Nat → Nat → Option (Except String (ClientState × List (Option (Batch V))))
  | st, _, 0 => if st.stop then some (.ok (st, [])) else none
  | st, page, fuel + 1 =>
    if st.stop then some (.ok (st, []))
    else
      match processRequests responses st (List.range' page batchSize) with
      | .error msg => some (.error msg)
      | .ok (st', bs) =>
        match runOffsetRounds responses batchSize st' (page + batchSize) fuel with
        | none => none
        | some (.error msg) => some (.error msg)
        | some (.ok (st'', bs')) => some (.ok (st'', bs ++ bs'))

/-- Embedding of `SAPClient._fetch_paging_offset(resource_alias, page)`. -/
def fetchPagingOffset (responses : Nat → Response V) (batchSize : Nat) (st : ClientState)
    (page : Nat) (fuel : Nat) :
    Option (Except String (ClientState × List (Option (Batch V)))) :=
  runOffsetRounds responses batchSize st (startPage page) fuel

/-- The file name `os.path.join(self.destination, f"{name}_{uuid.uuid4()}.json")`;
the fresh uuid4 suffix is a parameter. -/
def outputFilename (destination name fresh : String) : String :=
  destination ++ "/" ++ name ++ "_" ++ fresh ++ ".json"

/-- Embedding of `SAPClient._store_results`: with no destination configured
nothing is written; a falsy result (`None` from a paging request, or `[]`
from a full fetch) writes nothing; otherwise the batch is written as one
new file whose name carries the fresh suffix. The store is modelled as the
list of written files in order. -/
def storeResults (destination : String) (results : Option (Batch V)) (name fresh : String)
    (files : List (String × Batch V)) : List (String × Batch V) :=
  if destination = "" then files
  else
    match results with
    | none => files
    | some [] => files
    | some (row :: rows) => files ++ [(outputFilename destination name fresh, row :: rows)]

/-- The store loop of `SAPClient.fetch_with_paging`: each yielded page is
stored in order, a fresh uuid4 suffix (`fresh i`) per call. -/
def storeAll (destination name : String) (fresh : Nat → String) :
    List (Option (Batch V)) → Nat → List (String × Batch V) → List (String × Batch V)
  | [], _, files => files
  | b :: bs, i, files =>
    storeAll destination name fresh bs (i + 1) (storeResults destination b name (fresh i) files)

/-- One key block `{KEY_MIN, KEY_MAX}` returned by `$key_blocks`. -/
structure KeyBlock where
  KEY_MIN : String
  KEY_MAX : String
deriving DecidableEq

/-- The block loop of `SAPClient._fetch_paging_key`: blocks are appended to
a task buffer; when the buffer reaches `batchSize` it is gathered and its
results are yielded in order; a non-empty remainder is gathered at the
end. -/
def runKeyBlocks (resp : KeyBlock → Response V) (batchSize : Nat) :
    List KeyBlock → ClientState → List KeyBlock →
    Except String (ClientState × List (Option (Batch V)))
  | [], st, tasks =>
    if tasks.isEmpty then .ok (st, [])
    else processRequests resp st tasks
  | b :: blocks, st, tasks =>
    if (tasks ++ [b]).length = batchSize then
      match processRequests resp st (tasks ++ [b]) with
      | .error msg => .error msg
      | .ok (st', rs) =>
        match runKeyBlocks resp batchSize blocks st' [] with
        | .error msg => .error msg
        | .ok (st'', rs') => .ok (st'', rs ++ rs')
    else runKeyBlocks resp batchSize blocks st (tasks ++ [b])

/-- Embedding of `SAPClient._fetch_paging_key`: the `$key_blocks` request
yields `blocks` (`none` models a response with no `KEY_BLOCKS` key); a falsy
block list raises `SapClientException` with no fallback; otherwise every
block is fetched with exactly one request whose params carry that block's
`KEY_MIN`/`KEY_MAX` (modelled by `resp` being a function of the block),
gathered in rounds of `batchSize`. -/
def fetchPagingKey (blocks : Option (List KeyBlock)) (resp : KeyBlock → Response V)
    (batchSize : Nat) (st : ClientState) :
    Except String (ClientState × List (Option (Batch V))) :=
  match blocks with
  | none => .error "Unable to obtain key blocks."
  | some [] => .error "Unable to obtain key blocks."
  | some (b :: bs) => runKeyBlocks resp batchSize (b :: bs) st []

/-- Embedding of `SAPClient._fetch_full`: a single request; no entity or no
rows give `[]`, otherwise the processed rows; the delta pointer of the
entity is recorded (and can raise). -/
def fetchFull (st : ClientState) (r : Response V) : Except String (ClientState × Batch V) :=
  match r.ENTITIES with
  | [] => .ok (st, [])
  | e :: _ =>
    match setDeltaPointer st.delta_values e with
    | .error msg => .error msg
    | .ok dv =>
      match e.ROWS with
      | [] => .ok ({ st with delta_values := dv }, [])
      | row :: rows => .ok ({ st with delta_values := dv },
          processResult (row :: rows) (getColumns e.COLUMNS))

/-- Python truthiness of a delta value (`if self.delta:`): zero ints and
floats and the empty string are falsy. -/
def deltaTruthyV : DeltaV → Bool
  | .int n => n ≠ 0
  | .float q => q ≠ 0
  | .str s => s ≠ ""

/-- Truthiness of the `delta` constructor argument; `none` models both
`None` and `False` from `Component._init_delta`. -/
def deltaTruthy : Option DeltaV → Bool
  | none => false
  | some v => deltaTruthyV v

/-- The `__init__` seeding of `delta_values`: a truthy delta pointer is
appended to the initially empty list. -/
def initDeltaValues (delta : Option DeltaV) : List DeltaV :=
  match delta with
  | none => []
  | some v => if deltaTruthyV v then [v] else []

/-- The client state right after `SAPClient.__init__`. -/
def initState (delta : Option DeltaV) : ClientState :=
  { stop := false, delta_values := initDeltaValues delta }

/-- Python `str(part).strip("/")`: leading and trailing slashes removed. -/
def stripSlashes (s : String) : String :=
  String.mk ((s.data.dropWhile (fun c => c = '/')).reverse.dropWhile
    (fun c => c = '/')).reverse

/-- Embedding of `SAPClient._join_url_parts`. -/
def joinUrlParts (parts : List String) : String :=
  String.intercalate "/" (parts.map stripSlashes)

/-- Embedding of `SAPClient._get_data_sources_endpoint`: the `$delta`
endpoint exactly when the client's delta pointer is truthy. -/
def getDataSourcesEndpoint (delta : Option DeltaV) (resourceAlias : String) : String :=
  if deltaTruthy delta then joinUrlParts ["DATA_SOURCES", resourceAlias, "$delta"]
  else joinUrlParts ["DATA_SOURCES", resourceAlias]

/-- Embedding of `SAPClient._get_request_params`: a truthy delta pointer is
added as the `delta_pointer` param. -/
def getRequestParams (delta : Option DeltaV) (params : List (String × DeltaV)) :
    List (String × DeltaV) :=
  match delta with
  | none => params
  | some v => if deltaTruthyV v then params ++ [("delta_pointer", v)] else params

/-- Embedding of `SAPClient.check_delta_support`: raises when the client has
a truthy delta pointer and the resource does not support delta. -/
def checkDeltaSupport (delta : Option DeltaV) (resourceAlias : String) (dsDelta : Bool) :
    Except String Unit :=
  if deltaTruthy delta ∧ ¬dsDelta then
    .error ("Resource " ++ resourceAlias ++ " does not support delta function.")
  else .ok ()

/-- Which data path `SAPClient.fetch` takes after metadata resolution. -/
inductive FetchMode where
  | fullRequest
  | pagingOffset
  | pagingKey
deriving DecidableEq

/-- The dispatch of `SAPClient.fetch`: after `check_delta_support`, a truthy
delta pointer forces the single full `$delta` request; otherwise a paging
resource uses the requested paging method (an unknown method raises) and a
non-paging resource falls back to one full request. -/
def fetchDispatch (delta : Option DeltaV) (resourceAlias : String)
    (dsDelta dsPaging : Bool) (pagingMethod : String) : Except String FetchMode :=
  match checkDeltaSupport delta resourceAlias dsDelta with
  | .error msg => .error msg
  | .ok _ =>
    if deltaTruthy delta then .ok .fullRequest
    else if dsPaging then
      if pagingMethod = "offset" then .ok .pagingOffset
      else if pagingMethod = "key" then .ok .pagingKey
      else .error ("Unsupported paging method: " ++ pagingMethod)
    else .ok .fullRequest

/-- Embedding of the `SAPClient.max_delta_pointer` property:
`_max_timestamp_or_id(self.delta_values)`. -/
def maxDeltaPointer (deltaValues : List DeltaV) : Option DeltaV :=
  maxTimestampOrId pyStrDelta deltaValues

/-- One entity of a `$metadata` descriptor, `data_source_model.Entity`. -/
structure MetaEntity where
  ENTITY_ALIAS : String := ""
  ENTITY_TEXT : String := ""
  ENTITY_TYPE : String := ""
  DELTA_POINTER : String := ""
  COLUMNS : List Column := []
deriving DecidableEq

/-- A resource descriptor, `data_source_model.DataSource` (whose
`from_dict` only uppercases keys and performs no validation of the entity
count). -/
structure DataSourceModel where
  SOURCE_ALIAS : String := ""
  SOURCE_TEXT : String := ""
  SOURCE_TYPE : String := ""
  PAGING : Bool := false
  DELTA : Bool := false
  ENTITIES : List MetaEntity := []
deriving DecidableEq

/-- Embedding of `DataSource._get_ordered_columns`: the columns sorted
stably by `POSITION`, keyed by alias. A Python dict comprehension keyed by
alias keeps the first insertion position of a duplicated alias and its last
value; aliases are unique per entity in every descriptor considered here,
so the assoc list in sorted order is the faithful image. -/
def getOrderedColumns (e : MetaEntity) : List (String × Column) :=
  (sortByPosition e.COLUMNS).map (fun c => (c.COLUMN_ALIAS, c))

/-- Embedding of the `DataSource.metadata` property: `self.ENTITIES[0]`
raises `IndexError` on an empty entity list (not a `SapClientException`)
and silently uses the first entity otherwise. -/
def dataSourceMetadata (ds : DataSourceModel) : Except String (List (String × Column)) :=
  match ds.ENTITIES with
  | [] => .error "IndexError: list index out of range"
  | e :: _ => .ok (getOrderedColumns e)

/-- A response whose first entity carries no rows: the offset end-of-data
signal (`self.stop = True`). -/
def emptyFirstEntity (r : Response V) : Prop :=
  ∃ e es, r.ENTITIES = e :: es ∧ e.ROWS = []

/-- The delta pointer of an entity is absent, falsy, or parseable, so that
`_set_delta_pointer` does not raise. -/
def entityDeltaOk (e : RespEntity V) : Bool :=
  match e.DELTA_POINTER with
  | none => true
  | some s => s = "" || (pyParseInt s).isSome || (pyParseFloat s).isSome

/-- The first entity of the response, if any, has a well-formed delta
pointer. -/
def responseDeltaOk (r : Response V) : Bool :=
  match r.ENTITIES with
  | [] => true
  | e :: _ => entityDeltaOk e

/-- Boolean form of `emptyFirstEntity`, to decide concrete scenarios. -/
def emptyFirstEntityB (r : Response V) : Bool :=
  match r.ENTITIES with
  | [] => false
  | e :: _ => e.ROWS.isEmpty

instance (r : Response V) : Decidable (emptyFirstEntity r) :=
  decidable_of_iff (emptyFirstEntityB r = true) (by
    obtain ⟨E⟩ := r
    cases E with
    | nil =>
      constructor
      · intro h
        simp [emptyFirstEntityB] at h
      · rintro ⟨e, es, hE, hR⟩
        simp at hE
    | cons e es =>
      constructor
      · intro h
        simp only [emptyFirstEntityB, List.isEmpty_iff] at h
        exact ⟨e, es, rfl, h⟩
      · rintro ⟨e', es', hE, hR⟩
        simp only at hE
        injection hE with h1 h2
        subst h1
        simp only [emptyFirstEntityB, List.isEmpty_iff]
        exact hR)

/-- Witness scenario: a page response with one row. -/
def pageFull : Response Nat :=
  { ENTITIES := [{ COLUMNS := [{ POSITION := 1, COLUMN_ALIAS := "ID" }], ROWS := [[7]] }] }

/-- Witness scenario: a page response whose entity has no rows. -/
def pageEmpty : Response Nat :=
  { ENTITIES := [{ COLUMNS := [{ POSITION := 1, COLUMN_ALIAS := "ID" }], ROWS := [] }] }

/-- Witness scenario for termination: pages 1..3 have data, page 4 on are
empty. -/
def wRespC2 : Nat → Response Nat := fun p => if p < 4 then pageFull else pageEmpty

/-- Witness scenario for the stop condition: page 1 has data, pages 2 on are
empty. -/
def wRespC3 : Nat → Response Nat := fun p => if p < 2 then pageFull else pageEmpty

/-- Witness scenario: a batch response carrying delta pointer `"20240101"`. -/
def wRespDelta : Response Nat :=
  { ENTITIES := [{ DELTA_POINTER := some "20240101",
                   COLUMNS := [{ POSITION := 1, COLUMN_ALIAS := "ID" }],
                   ROWS := [[1]] }] }

/-- Witness scenario key blocks. -/
def wBlock1 : KeyBlock := { KEY_MIN := "A", KEY_MAX := "M" }

/-- Witness scenario key blocks, second half of the keyspace. -/
def wBlock2 : KeyBlock := { KEY_MIN := "N", KEY_MAX := "Z" }

/-- Witness scenario: every key-block request returns one row. -/
def wRespKey : KeyBlock → Response Nat := fun _ => pageFull

/-- The `CUSTOMERS` scenario of the spec: 2,500 rows served with
`limit = 1000`, so page `i` carries rows `(i-1)*1000 .. min(i*1000, 2500)-1`
(one `ID` column; a row is `[j]`). -/
def customersRows (p : Nat) : List (List Nat) :=
  (List.range' ((p - 1) * 1000) (min (p * 1000) 2500 - (p - 1) * 1000)).map fun j => [j]

/-- The `CUSTOMERS` scenario page responses. -/
def customersResponses (p : Nat) : Response Nat :=
  { ENTITIES := [{ COLUMNS := [{ POSITION := 1, COLUMN_ALIAS := "ID" }],
                   ROWS := customersRows p }] }

/-- A descriptor entity named `A` for the metadata counterexample. -/
def entA : MetaEntity :=
  { ENTITY_ALIAS := "A", COLUMNS := [{ POSITION := 1, COLUMN_ALIAS := "X" }] }

/-- A second descriptor entity named `B`. -/
def entB : MetaEntity :=
  { ENTITY_ALIAS := "B", COLUMNS := [{ POSITION := 1, COLUMN_ALIAS := "Y" }] }

/-- A resource descriptor with two entities. -/
def dsTwoEntities : DataSourceModel :=
  { SOURCE_ALIAS := "S", ENTITIES := [entA, entB] }


theorem lexLe_refl : ∀ l : List Char, lexLe l l = true
  | [] => rfl
  | _ :: as => by simpa [lexLe] using lexLe_refl as

theorem strLe_refl (a : String) : strLe a a = true :=
  lexLe_refl a.data

theorem lexLe_total : ∀ l₁ l₂ : List Char, lexLe l₁ l₂ = true ∨ lexLe l₂ l₁ = true
  | [], _ => Or.inl rfl
  | _ :: _, [] => Or.inr rfl
  | a :: as, b :: bs => by
    by_cases hab : a = b
    · subst hab
      simpa [lexLe] using lexLe_total as bs
    · have hn : a.toNat ≠ b.toNat := fun h =>
        hab (Char.eq_of_val_eq (UInt32.ext h))
      rcases Nat.lt_or_ge a.toNat b.toNat with h | h
      · exact Or.inl (by simp [lexLe, hab, h])
      · have h' : b.toNat < a.toNat := lt_of_le_of_ne h (fun e => hn e.symm)
        exact Or.inr (by simp [lexLe, fun e => hab (Char.eq_of_val_eq (UInt32.ext e)).symm
          , Ne.symm hab, h'])

theorem strLe_total (a b : String) : strLe a b = true ∨ strLe b a = true :=
  lexLe_total a.data b.data

theorem lexLe_antisymm : ∀ {l₁ l₂ : List Char},
    lexLe l₁ l₂ = true → lexLe l₂ l₁ = true → l₁ = l₂
  | [], [], _, _ => rfl
  | [], _ :: _, _, h₂ => by simp [lexLe] at h₂
  | _ :: _, [], h₁, _ => by simp [lexLe] at h₁
  | a :: as, b :: bs, h₁, h₂ => by
    by_cases hab : a = b
    · subst hab
      simp only [lexLe, if_pos rfl] at h₁ h₂
      exact congrArg (a :: ·) (lexLe_antisymm h₁ h₂)
    · simp only [lexLe, if_neg hab, if_neg (Ne.symm hab), decide_eq_true_eq] at h₁ h₂
      omega

theorem strLe_antisymm {a b : String} (h₁ : strLe a b = true) (h₂ : strLe b a = true) :
    a = b := by
  cases a with
  | mk da => cases b with
    | mk db => exact congrArg String.mk (lexLe_antisymm h₁ h₂)

theorem lexLe_trans : ∀ {l₁ l₂ l₃ : List Char},
    lexLe l₁ l₂ = true → lexLe l₂ l₃ = true → lexLe l₁ l₃ = true
  | [], _, _, _, _ => rfl
  | _ :: _, [], _, h₁, _ => by simp [lexLe] at h₁
  | _ :: _, _ :: _, [], _, h₂ => by simp [lexLe] at h₂
  | a :: as, b :: bs, c :: cs, h₁, h₂ => by
    by_cases hab : a = b
    · subst hab
      by_cases hac : a = c
      · subst hac
        simp only [lexLe, if_pos rfl] at h₁ h₂ ⊢
        exact lexLe_trans h₁ h₂
      · simpa [lexLe, hac] using h₂
    · by_cases hbc : b = c
      · subst hbc
        simpa [lexLe, hab] using h₁
      · have hac : a ≠ c := by
          intro e
          subst e
          simp only [lexLe, if_neg hab, if_neg (Ne.symm hab), decide_eq_true_eq] at h₁
          simp only [lexLe, if_neg hbc, if_neg (Ne.symm hbc), decide_eq_true_eq] at h₂
          omega
        simp only [lexLe, if_neg hab, decide_eq_true_eq] at h₁
        simp only [lexLe, if_neg hbc, decide_eq_true_eq] at h₂
        simp only [lexLe, if_neg hac, decide_eq_true_eq]
        omega

theorem strLe_trans {a b c : String} (h₁ : strLe a b = true) (h₂ : strLe b c = true) :
    strLe a c = true :=
  lexLe_trans h₁ h₂

theorem pyMaxStr_cases (a b : String) : pyMaxStr a b = a ∨ pyMaxStr a b = b := by
  unfold pyMaxStr
  split <;> simp

theorem strLe_pyMaxStr_left (a b : String) : strLe a (pyMaxStr a b) = true := by
  unfold pyMaxStr
  split
  · exact strLe_refl a
  · rcases strLe_total a b with h | h
    · exact h
    · simp_all

theorem strLe_pyMaxStr_right (a b : String) : strLe b (pyMaxStr a b) = true := by
  unfold pyMaxStr
  split
  · assumption
  · exact strLe_refl b

theorem foldl_pyMaxStr_mem : ∀ (xs : List String) (x : String),
    xs.foldl pyMaxStr x = x ∨ xs.foldl pyMaxStr x ∈ xs
  | [], _ => Or.inl rfl
  | y :: ys, x => by
    rw [List.foldl_cons]
    rcases foldl_pyMaxStr_mem ys (pyMaxStr x y) with h | h
    · rw [h]
      rcases pyMaxStr_cases x y with h' | h'
      · exact Or.inl h'
      · rw [h']
        exact Or.inr (List.mem_cons_self y ys)
    · exact Or.inr (List.mem_cons_of_mem y h)

theorem strLe_foldl_init : ∀ (xs : List String) (x : String),
    strLe x (xs.foldl pyMaxStr x) = true
  | [], x => strLe_refl x
  | y :: ys, x => by
    simp only [List.foldl_cons]
    exact strLe_trans (strLe_pyMaxStr_left x y) (strLe_foldl_init ys (pyMaxStr x y))

theorem strLe_foldl_mem : ∀ (xs : List String) (x y : String), y ∈ xs →
    strLe y (xs.foldl pyMaxStr x) = true
  | [], _, _, h => by simp at h
  | z :: zs, x, y, h => by
    simp only [List.foldl_cons]
    rcases List.mem_cons.mp h with h' | h'
    · subst h'
      exact strLe_trans (strLe_pyMaxStr_right x y) (strLe_foldl_init zs (pyMaxStr x y))
    · exact strLe_foldl_mem zs (pyMaxStr x z) y h'

theorem pyMax_mem {l : List String} (h : l ≠ []) : pyMax l ∈ l := by
  cases l with
  | nil => exact absurd rfl h
  | cons x xs =>
    show xs.foldl pyMaxStr x ∈ x :: xs
    rcases foldl_pyMaxStr_mem xs x with h' | h'
    · rw [h']
      exact List.mem_cons_self x xs
    · exact List.mem_cons_of_mem x h'

theorem strLe_pyMax {l : List String} {y : String} (h : y ∈ l) :
    strLe y (pyMax l) = true := by
  cases l with
  | nil => simp at h
  | cons x xs =>
    rcases List.mem_cons.mp h with h' | h'
    · exact h' ▸ strLe_foldl_init xs x
    · exact strLe_foldl_mem xs x y h'

theorem pyMax_perm {l l' : List String} (hne : l ≠ []) (hp : l.Perm l') :
    pyMax l = pyMax l' :=
  have hne' : l' ≠ [] := fun e => hne (List.Perm.eq_nil (e ▸ hp))
  strLe_antisymm
    (strLe_pyMax (hp.mem_iff.mp (pyMax_mem hne)))
    (strLe_pyMax (hp.mem_iff.mpr (pyMax_mem hne')))

theorem listIndex_lt_length [DecidableEq α] {a : α} : ∀ {l : List α}, a ∈ l →
    listIndex a l < l.length
  | b :: l, h => by
    by_cases hba : b = a
    · simp [listIndex, hba]
    · have h' : a ∈ l := by
        rcases List.mem_cons.mp h with h'' | h''
        · exact absurd h''.symm hba
        · exact h''
      simpa [listIndex, hba] using listIndex_lt_length h'

theorem getElem_listIndex [DecidableEq α] {a : α} : ∀ {l : List α}, a ∈ l →
    ∀ (h : listIndex a l < l.length), l[listIndex a l] = a
  | b :: l, hm, h => by
    by_cases hba : b = a
    · simp [listIndex, hba]
    · have hm' : a ∈ l := by
        rcases List.mem_cons.mp hm with h'' | h''
        · exact absurd h''.symm hba
        · exact h''
      have hlt : listIndex a l < l.length := listIndex_lt_length hm'
      simp only [listIndex, if_neg hba, List.getElem_cons_succ]
      exact getElem_listIndex hm' hlt

theorem maxTimestampOrId_spec (str : α → String) :
    ∀ {values : List α}, values ≠ [] →
    ∃ r, maxTimestampOrId str values = some r ∧ r ∈ values ∧
      normalizeValue str values r = pyMax (values.map (normalizeValue str values)) ∧
      ∀ x ∈ values,
        strLe (normalizeValue str values x) (normalizeValue str values r) = true := by
  intro values hne
  cases values with
  | nil => exact absurd rfl hne
  | cons v vs =>
    have hmem : pyMax ((v :: vs).map (normalizeValue str (v :: vs)))
        ∈ (v :: vs).map (normalizeValue str (v :: vs)) := pyMax_mem (by simp)
    have hidx : listIndex (pyMax ((v :: vs).map (normalizeValue str (v :: vs))))
        ((v :: vs).map (normalizeValue str (v :: vs)))
        < ((v :: vs).map (normalizeValue str (v :: vs))).length := listIndex_lt_length hmem
    have hidx' : listIndex (pyMax ((v :: vs).map (normalizeValue str (v :: vs))))
        ((v :: vs).map (normalizeValue str (v :: vs))) < (v :: vs).length := by
      simpa using hidx
    refine ⟨(v :: vs).getD (listIndex (pyMax ((v :: vs).map (normalizeValue str (v :: vs))))
      ((v :: vs).map (normalizeValue str (v :: vs)))) v, rfl, ?_, ?_, ?_⟩
    · rw [List.getD_eq_getElem (v :: vs) v hidx']
      exact List.getElem_mem hidx'
    · rw [List.getD_eq_getElem (v :: vs) v hidx']
      have h1 : ((v :: vs).map (normalizeValue str (v :: vs)))[listIndex
          (pyMax ((v :: vs).map (normalizeValue str (v :: vs))))
          ((v :: vs).map (normalizeValue str (v :: vs)))] =
          pyMax ((v :: vs).map (normalizeValue str (v :: vs))) := getElem_listIndex hmem hidx
      rw [List.getElem_map] at h1
      exact h1
    · intro x hx
      rw [List.getD_eq_getElem (v :: vs) v hidx']
      have h1 : ((v :: vs).map (normalizeValue str (v :: vs)))[listIndex
          (pyMax ((v :: vs).map (normalizeValue str (v :: vs))))
          ((v :: vs).map (normalizeValue str (v :: vs)))] =
          pyMax ((v :: vs).map (normalizeValue str (v :: vs))) := getElem_listIndex hmem hidx
      rw [List.getElem_map] at h1
      rw [h1]
      exact strLe_pyMax (List.mem_map_of_mem _ hx)

theorem foldl_max_perm [LinearOrder γ] {l₁ l₂ : List γ} (hp : l₁.Perm l₂) :
    ∀ b, l₁.foldl max b = l₂.foldl max b := by
  induction hp with
  | nil => intro b; rfl
  | cons x _ ih => intro b; simp only [List.foldl_cons]; exact ih _
  | swap x y l => intro b; simp only [List.foldl_cons]; rw [max_assoc, max_comm y x, ← max_assoc]
  | trans _ _ ih₁ ih₂ => intro b; rw [ih₁, ih₂]

theorem normLength_perm (str : α → String) {l l' : List α} (hp : l.Perm l') :
    normLength str l = normLength str l' :=
  foldl_max_perm (hp.map _) 0

theorem maxTimestampOrId_perm (str : α → String) {l l' : List α} (hp : l.Perm l')
    (hinj : ∀ a ∈ l, ∀ b ∈ l, normalizeValue str l a = normalizeValue str l b → a = b) :
    maxTimestampOrId str l = maxTimestampOrId str l' := by
  cases l with
  | nil => rw [List.Perm.eq_nil hp.symm]
  | cons v vs =>
    have hne : (v :: vs : List α) ≠ [] := by simp
    have hne' : l' ≠ [] := fun e => absurd (List.Perm.eq_nil (e ▸ hp)) hne
    obtain ⟨r, hr, hrmem, hrnorm, _⟩ := maxTimestampOrId_spec str hne
    obtain ⟨r', hr', hrmem', hrnorm', _⟩ := maxTimestampOrId_spec str hne'
    have hL : normLength str (v :: vs) = normLength str l' := normLength_perm str hp
    have hNV : normalizeValue str l' = normalizeValue str (v :: vs) := by
      funext x
      unfold normalizeValue
      rw [hL]
    have hpm : pyMax ((v :: vs).map (normalizeValue str (v :: vs)))
        = pyMax (l'.map (normalizeValue str (v :: vs))) :=
      pyMax_perm (by simp) (hp.map _)
    rw [hNV] at hrnorm'
    have heqn : normalizeValue str (v :: vs) r = normalizeValue str (v :: vs) r' := by
      rw [hrnorm, hrnorm', hpm]
    have hrr : r = r' := hinj r hrmem r' (hp.mem_iff.mpr hrmem') heqn
    rw [hr, hr', hrr]

theorem batchOf_eq_none_of_empty {r : Response V} (h : emptyFirstEntity r) :
    batchOf r = none := by
  obtain ⟨e, es, hE, hR⟩ := h
  obtain ⟨E⟩ := r
  simp only at hE
  subst hE
  simp only [batchOf, hR]

theorem setDeltaPointer_ok {e : RespEntity V} (he : entityDeltaOk e = true)
    (dv : List DeltaV) : ∃ dv', setDeltaPointer dv e = .ok dv' := by
  obtain ⟨dp, cols, rows⟩ := e
  cases dp with
  | none => exact ⟨dv, rfl⟩
  | some s =>
    simp only [entityDeltaOk] at he
    by_cases hs : s = ""
    · exact ⟨dv, by simp only [setDeltaPointer, if_pos hs]⟩
    · cases hI : pyParseInt s with
      | some n => exact ⟨dv ++ [DeltaV.int n], by simp only [setDeltaPointer, if_neg hs, hI]⟩
      | none =>
        cases hF : pyParseFloat s with
        | some q => exact ⟨dv ++ [DeltaV.float q],
            by simp only [setDeltaPointer, if_neg hs, hI, hF]⟩
        | none => simp [hs, hI, hF] at he

theorem getAndProcess_batchOf {st st' : ClientState} {r : Response V} {b : Option (Batch V)}
    (h : getAndProcess st r = .ok (st', b)) : b = batchOf r := by
  obtain ⟨E⟩ := r
  cases E with
  | nil =>
    simp only [getAndProcess, Except.ok.injEq, Prod.mk.injEq] at h
    simp only [batchOf]
    exact h.2.symm
  | cons e es =>
    simp only [getAndProcess] at h
    simp only [batchOf]
    cases hS : setDeltaPointer st.delta_values e with
    | error msg => rw [hS] at h; simp at h
    | ok dv =>
      rw [hS] at h
      cases hR : e.ROWS with
      | nil =>
        rw [hR] at h
        simp only [Except.ok.injEq, Prod.mk.injEq] at h
        exact h.2.symm
      | cons row rows =>
        rw [hR] at h
        simp only [Except.ok.injEq, Prod.mk.injEq] at h
        exact h.2.symm

theorem getAndProcess_ok {r : Response V} (hr : responseDeltaOk r = true)
    (st : ClientState) : ∃ st' b, getAndProcess st r = .ok (st', b) := by
  obtain ⟨E⟩ := r
  cases E with
  | nil => exact ⟨st, none, rfl⟩
  | cons e es =>
    simp only [responseDeltaOk] at hr
    obtain ⟨dv, hdv⟩ := setDeltaPointer_ok hr st.delta_values
    simp only [getAndProcess]
    rw [hdv]
    cases hR : e.ROWS with
    | nil => exact ⟨_, _, rfl⟩
    | cons row rows => exact ⟨_, _, rfl⟩

theorem getAndProcess_stop_mono {st st' : ClientState} {r : Response V} {b : Option (Batch V)}
    (h : getAndProcess st r = .ok (st', b)) (hs : st.stop = true) : st'.stop = true := by
  obtain ⟨E⟩ := r
  cases E with
  | nil =>
    simp only [getAndProcess, Except.ok.injEq, Prod.mk.injEq] at h
    rw [← h.1]
    exact hs
  | cons e es =>
    simp only [getAndProcess] at h
    cases hS : setDeltaPointer st.delta_values e with
    | error msg => rw [hS] at h; simp at h
    | ok dv =>
      rw [hS] at h
      cases hR : e.ROWS with
      | nil =>
        rw [hR] at h
        simp only [Except.ok.injEq, Prod.mk.injEq] at h
        rw [← h.1]
      | cons row rows =>
        rw [hR] at h
        simp only [Except.ok.injEq, Prod.mk.injEq] at h
        rw [← h.1]
        exact hs

theorem getAndProcess_stop_of_empty {st st' : ClientState} {r : Response V}
    {b : Option (Batch V)} (hem : emptyFirstEntity r)
    (h : getAndProcess st r = .ok (st', b)) : st'.stop = true := by
  obtain ⟨e, es, hE, hR⟩ := hem
  obtain ⟨E⟩ := r
  simp only at hE
  subst hE
  simp only [getAndProcess] at h
  cases hS : setDeltaPointer st.delta_values e with
  | error msg => rw [hS] at h; simp at h
  | ok dv =>
    rw [hS, hR] at h
    simp only [Except.ok.injEq, Prod.mk.injEq] at h
    rw [← h.1]

theorem getAndProcess_stop_eq {st st' : ClientState} {r : Response V} {b : Option (Batch V)}
    (h : getAndProcess st r = .ok (st', b)) (hne : ¬emptyFirstEntity r) :
    st'.stop = st.stop := by
  obtain ⟨E⟩ := r
  cases E with
  | nil =>
    simp only [getAndProcess, Except.ok.injEq, Prod.mk.injEq] at h
    rw [← h.1]
  | cons e es =>
    simp only [getAndProcess] at h
    cases hS : setDeltaPointer st.delta_values e with
    | error msg => rw [hS] at h; simp at h
    | ok dv =>
      rw [hS] at h
      cases hR : e.ROWS with
      | nil => exact absurd ⟨e, es, rfl, hR⟩ hne
      | cons row rows =>
        rw [hR] at h
        simp only [Except.ok.injEq, Prod.mk.injEq] at h
        rw [← h.1]

theorem processRequests_batches {resp : β → Response V} :
    ∀ {ps : List β} {st st' : ClientState} {bs : List (Option (Batch V))},
    processRequests resp st ps = .ok (st', bs) → bs = ps.map fun p => batchOf (resp p)
  | [], st, st', bs, h => by
    simp only [processRequests, Except.ok.injEq, Prod.mk.injEq] at h
    rw [← h.2, List.map_nil]
  | p :: ps, st, st', bs, h => by
    simp only [processRequests] at h
    cases hG : getAndProcess st (resp p) with
    | error msg => simp only [hG] at h; exact Except.noConfusion h
    | ok pr =>
      obtain ⟨st₁, b⟩ := pr
      simp only [hG] at h
      cases hP : processRequests resp st₁ ps with
      | error msg => simp only [hP] at h; exact Except.noConfusion h
      | ok pr₂ =>
        obtain ⟨st₂, bs₂⟩ := pr₂
        simp only [hP, Except.ok.injEq, Prod.mk.injEq] at h
        rw [← h.2, List.map_cons, getAndProcess_batchOf hG, processRequests_batches hP]

theorem processRequests_stop_mono {resp : β → Response V} :
    ∀ {ps : List β} {st st' : ClientState} {bs : List (Option (Batch V))},
    processRequests resp st ps = .ok (st', bs) → st.stop = true → st'.stop = true
  | [], st, st', bs, h, hs => by
    simp only [processRequests, Except.ok.injEq, Prod.mk.injEq] at h
    rw [← h.1]
    exact hs
  | p :: ps, st, st', bs, h, hs => by
    simp only [processRequests] at h
    cases hG : getAndProcess st (resp p) with
    | error msg => simp only [hG] at h; exact Except.noConfusion h
    | ok pr =>
      obtain ⟨st₁, b⟩ := pr
      simp only [hG] at h
      cases hP : processRequests resp st₁ ps with
      | error msg => simp only [hP] at h; exact Except.noConfusion h
      | ok pr₂ =>
        obtain ⟨st₂, bs₂⟩ := pr₂
        simp only [hP, Except.ok.injEq, Prod.mk.injEq] at h
        rw [← h.1]
        exact processRequests_stop_mono hP (getAndProcess_stop_mono hG hs)

theorem processRequests_stop_of_mem {resp : β → Response V} :
    ∀ {ps : List β} {st st' : ClientState} {bs : List (Option (Batch V))} {p : β},
    processRequests resp st ps = .ok (st', bs) → p ∈ ps → emptyFirstEntity (resp p) →
    st'.stop = true
  | [], _, _, _, _, _, hm, _ => by simp at hm
  | q :: ps, st, st', bs, p, h, hm, hem => by
    simp only [processRequests] at h
    cases hG : getAndProcess st (resp q) with
    | error msg => simp only [hG] at h; exact Except.noConfusion h
    | ok pr =>
      obtain ⟨st₁, b⟩ := pr
      simp only [hG] at h
      cases hP : processRequests resp st₁ ps with
      | error msg => simp only [hP] at h; exact Except.noConfusion h
      | ok pr₂ =>
        obtain ⟨st₂, bs₂⟩ := pr₂
        simp only [hP, Except.ok.injEq, Prod.mk.injEq] at h
        rw [← h.1]
        rcases List.mem_cons.mp hm with h' | h'
        · subst h'
          exact processRequests_stop_mono hP (getAndProcess_stop_of_empty hem hG)
        · exact processRequests_stop_of_mem hP h' hem

theorem processRequests_ok {resp : β → Response V} :
    ∀ {ps : List β} (st : ClientState), (∀ p ∈ ps, responseDeltaOk (resp p) = true) →
    ∃ st' bs, processRequests resp st ps = .ok (st', bs)
  | [], st, _ => ⟨st, [], rfl⟩
  | p :: ps, st, hok => by
    obtain ⟨st₁, b, hG⟩ := getAndProcess_ok (hok p (List.mem_cons_self p ps)) st
    obtain ⟨st₂, bs₂, hP⟩ := processRequests_ok st₁
      (fun q hq => hok q (List.mem_cons_of_mem p hq))
    refine ⟨st₂, b :: bs₂, ?_⟩
    simp only [processRequests, hG, hP]

theorem processRequests_stop_eq {resp : β → Response V} :
    ∀ {ps : List β} {st st' : ClientState} {bs : List (Option (Batch V))},
    processRequests resp st ps = .ok (st', bs) →
    (∀ p ∈ ps, ¬emptyFirstEntity (resp p)) → st'.stop = st.stop
  | [], st, st', bs, h, _ => by
    simp only [processRequests, Except.ok.injEq, Prod.mk.injEq] at h
    rw [← h.1]
  | p :: ps, st, st', bs, h, hne => by
    simp only [processRequests] at h
    cases hG : getAndProcess st (resp p) with
    | error msg => simp only [hG] at h; exact Except.noConfusion h
    | ok pr =>
      obtain ⟨st₁, b⟩ := pr
      simp only [hG] at h
      cases hP : processRequests resp st₁ ps with
      | error msg => simp only [hP] at h; exact Except.noConfusion h
      | ok pr₂ =>
        obtain ⟨st₂, bs₂⟩ := pr₂
        simp only [hP, Except.ok.injEq, Prod.mk.injEq] at h
        rw [← h.1]
        rw [processRequests_stop_eq hP (fun q hq => hne q (List.mem_cons_of_mem p hq))]
        exact getAndProcess_stop_eq hG (hne p (List.mem_cons_self p ps))

theorem runOffsetRounds_stopped {responses : Nat → Response V} {B : Nat} {st : ClientState}
    (hs : st.stop = true) (page fuel : Nat) :
    runOffsetRounds responses B st page fuel = some (.ok (st, [])) := by
  cases fuel <;> simp [runOffsetRounds, hs]

theorem runOffsetRounds_succ {V : Type} {responses : Nat → Response V} {B : Nat}
    {st : ClientState} {page fuel : Nat} (hsn : st.stop = false) :
    runOffsetRounds responses B st page (fuel + 1) =
      match processRequests responses st (List.range' page B) with
      | .error msg => some (.error msg)
      | .ok (st', bs) =>
        match runOffsetRounds responses B st' (page + B) fuel with
        | none => none
        | some (.error msg) => some (.error msg)
        | some (.ok (st'', bs')) => some (.ok (st'', bs ++ bs')) := by
  conv_lhs => simp only [runOffsetRounds]
  rw [hsn]
  simp

theorem runOffsetRounds_terminates {V : Type} {responses : Nat → Response V} {B : Nat} :
    ∀ (k : Nat) (st : ClientState) (page : Nat),
    (∃ i, i < B ∧ emptyFirstEntity (responses (page + k * B + i))) →
    ∃ res, runOffsetRounds responses B st page (k + 1) = some res := by
  intro k
  induction k with
  | zero =>
    intro st page hex
    by_cases hs : st.stop = true
    · exact ⟨.ok (st, []), runOffsetRounds_stopped hs page 1⟩
    · have hsf : st.stop = false := by simpa using hs
      cases hPP : processRequests responses st (List.range' page B) with
      | error msg => exact ⟨.error msg, by rw [runOffsetRounds_succ hsf]; simp only [hPP]⟩
      | ok pr =>
        obtain ⟨st', bs⟩ := pr
        obtain ⟨i, hi, hem⟩ := hex
        have hmem : page + 0 * B + i ∈ List.range' page B :=
          List.mem_range'.mpr ⟨i, hi, by omega⟩
        have hstop : st'.stop = true := processRequests_stop_of_mem hPP hmem hem
        have h0 : runOffsetRounds responses B st' (page + B) 0 = some (.ok (st', [])) :=
          runOffsetRounds_stopped hstop (page + B) 0
        exact ⟨.ok (st', bs ++ []),
          by rw [runOffsetRounds_succ hsf]; simp only [hPP, h0]⟩
  | succ k ih =>
    intro st page hex
    by_cases hs : st.stop = true
    · exact ⟨.ok (st, []), runOffsetRounds_stopped hs page (k + 2)⟩
    · have hsf : st.stop = false := by simpa using hs
      cases hPP : processRequests responses st (List.range' page B) with
      | error msg => exact ⟨.error msg, by rw [runOffsetRounds_succ hsf]; simp only [hPP]⟩
      | ok pr =>
        obtain ⟨st', bs⟩ := pr
        obtain ⟨i, hi, hem⟩ := hex
        have hmul : (k + 1) * B = k * B + B := Nat.succ_mul k B
        have hex' : ∃ i, i < B ∧ emptyFirstEntity (responses (page + B + k * B + i)) := by
          refine ⟨i, hi, ?_⟩
          have he : page + B + k * B + i = page + (k + 1) * B + i := by omega
          rw [he]
          exact hem
        obtain ⟨res', hres'⟩ := ih st' (page + B) hex'
        cases res' with
        | error msg =>
          exact ⟨.error msg, by rw [runOffsetRounds_succ hsf]; simp only [hPP, hres']⟩
        | ok pr' =>
          obtain ⟨st'', bs'⟩ := pr'
          exact ⟨.ok (st'', bs ++ bs'),
            by rw [runOffsetRounds_succ hsf]; simp only [hPP, hres']⟩

theorem runOffsetRounds_exact {V : Type} {responses : Nat → Response V} {B : Nat}
    (hok : ∀ p, responseDeltaOk (responses p) = true) :
    ∀ (j : Nat) (st : ClientState) (page : Nat), st.stop = false →
    (∀ p, page ≤ p → p < page + j * B → ¬emptyFirstEntity (responses p)) →
    (∃ i, i < B ∧ emptyFirstEntity (responses (page + j * B + i))) →
    ∃ st', ∀ fuel, j + 1 ≤ fuel →
      runOffsetRounds responses B st page fuel
        = some (.ok (st', (List.range' page ((j + 1) * B)).map fun p => batchOf (responses p))) := by
  intro j
  induction j with
  | zero =>
    intro st page hs _ hex
    have hPPex : ∃ st' bs, processRequests responses st (List.range' page B) = .ok (st', bs) :=
      processRequests_ok st (fun p _ => hok p)
    obtain ⟨st', bs, hPP⟩ := hPPex
    have hbs : bs = (List.range' page B).map fun p => batchOf (responses p) :=
      processRequests_batches hPP
    obtain ⟨i, hi, hem⟩ := hex
    have hmem : page + 0 * B + i ∈ List.range' page B :=
      List.mem_range'.mpr ⟨i, hi, by omega⟩
    have hstop : st'.stop = true := processRequests_stop_of_mem hPP hmem hem
    refine ⟨st', ?_⟩
    intro fuel hfuel
    obtain ⟨f, rfl⟩ : ∃ f, fuel = f + 1 := ⟨fuel - 1, by omega⟩
    have h0 : runOffsetRounds responses B st' (page + B) f = some (.ok (st', [])) :=
      runOffsetRounds_stopped hstop (page + B) f
    rw [runOffsetRounds_succ hs]
    simp only [hPP, h0]
    simp [hbs]
  | succ j ih =>
    intro st page hs hpre hex
    have hPPex : ∃ st' bs, processRequests responses st (List.range' page B) = .ok (st', bs) :=
      processRequests_ok st (fun p _ => hok p)
    obtain ⟨st', bs, hPP⟩ := hPPex
    have hbs : bs = (List.range' page B).map fun p => batchOf (responses p) :=
      processRequests_batches hPP
    have hmul : (j + 1) * B = j * B + B := Nat.succ_mul j B
    have hnot : ∀ p ∈ List.range' page B, ¬emptyFirstEntity (responses p) := by
      intro p hp
      obtain ⟨i, hi, rfl⟩ := List.mem_range'.mp hp
      exact hpre _ (by omega) (by omega)
    have hstop_eq : st'.stop = st.stop := processRequests_stop_eq hPP hnot
    have hs' : st'.stop = false := by rw [hstop_eq]; exact hs
    have hpre' : ∀ p, page + B ≤ p → p < page + B + j * B → ¬emptyFirstEntity (responses p) := by
      intro p h1 h2
      exact hpre p (by omega) (by omega)
    have hex' : ∃ i, i < B ∧ emptyFirstEntity (responses (page + B + j * B + i)) := by
      obtain ⟨i, hi, hem⟩ := hex
      refine ⟨i, hi, ?_⟩
      have he : page + B + j * B + i = page + (j + 1) * B + i := by omega
      rw [he]
      exact hem
    obtain ⟨st'', hrec⟩ := ih st' (page + B) hs' hpre' hex'
    refine ⟨st'', ?_⟩
    intro fuel hfuel
    obtain ⟨f, rfl⟩ : ∃ f, fuel = f + 1 := ⟨fuel - 1, by omega⟩
    have hrec' := hrec f (by omega)
    have hsplit : List.range' page B ++ List.range' (page + B) ((j + 1) * B)
        = List.range' page ((j + 1 + 1) * B) := by
      have ha := List.range'_append page B ((j + 1) * B) 1
      simp only [one_mul] at ha
      rw [ha]
      congr 1
      ring
    rw [runOffsetRounds_succ hs]
    simp only [hPP, hrec']
    rw [hbs, ← List.map_append, hsplit]

/-- C1 counterexample: on the spec's scenario values `["100", "99", "12345"]`
the code returns `"99"`, not `"12345"`: right-padding `"99"` to `"99000"`
makes it the lexicographic maximum, and no numeric comparison ever
happens. -/
theorem C1_counterexample :
    maxTimestampOrId id ["100", "99", "12345"] = some "99" ∧
    maxTimestampOrId id ["100", "99", "12345"] ≠ some "12345" :=
  ⟨by decide, by decide⟩

/-- C1 (amended): on a non-empty collection, `max_delta_pointer` returns an
element of the collection whose zero-right-padded rendering (to the longest
rendered length) is lexicographically maximal among all the padded
renderings; the comparison is always this padded string comparison, never a
numeric one, so the scenario values yield `"99"` rather than `"12345"`. -/
theorem C1_theorem (str : α → String) (values : List α) (hne : values ≠ []) :
    ∃ r, maxTimestampOrId str values = some r ∧ r ∈ values ∧
      ∀ x ∈ values,
        strLe (normalizeValue str values x) (normalizeValue str values r) = true := by
  obtain ⟨r, h1, h2, _, h4⟩ := maxTimestampOrId_spec str hne
  exact ⟨r, h1, h2, h4⟩

/-- C1 witness: the amended theorem applied to the scenario list. -/
theorem C1_witness :
    ∃ r, maxTimestampOrId id ["100", "99", "12345"] = some r ∧
      r ∈ ["100", "99", "12345"] ∧
      ∀ x ∈ ["100", "99", "12345"],
        strLe (normalizeValue id ["100", "99", "12345"] x)
          (normalizeValue id ["100", "99", "12345"] r) = true :=
  C1_theorem id ["100", "99", "12345"] (by decide)

/-- C7 counterexample: `["99", "990"]` and its permutation `["990", "99"]`
normalize to the colliding renderings `["990", "990"]`, and
`values[normalized_data.index(...)]` picks the first occurrence, so the two
orders return different values. -/
theorem C7_counterexample :
    (["99", "990"] : List String).Perm ["990", "99"] ∧
    maxTimestampOrId id ["99", "990"] = some "99" ∧
    maxTimestampOrId id ["990", "99"] = some "990" :=
  ⟨List.Perm.swap "990" "99" [], by decide, by decide⟩

/-- C7 (amended): `max_delta_pointer` is permutation-invariant provided no
two distinct values of the list share one zero-padded rendering; when two
distinct values collide after padding, the result depends on the order. -/
theorem C7_theorem (str : α → String) {l l' : List α} (hp : l.Perm l')
    (hinj : ∀ a ∈ l, ∀ b ∈ l, normalizeValue str l a = normalizeValue str l b → a = b) :
    maxTimestampOrId str l = maxTimestampOrId str l' :=
  maxTimestampOrId_perm str hp hinj

/-- C7 witness: a collision-free list and a permutation of it agree. -/
theorem C7_witness :
    maxTimestampOrId id ["1", "22"] = maxTimestampOrId id ["22", "1"] :=
  C7_theorem id (List.Perm.swap "22" "1" []) (by decide)

/-- C5 counterexample: a descriptor with two entities does not fail with a
metadata error — `DataSource.metadata` silently proceeds with the first
entity's columns. -/
theorem C5_counterexample :
    dataSourceMetadata dsTwoEntities
      = .ok [("X", { POSITION := 1, COLUMN_ALIAS := "X" })] := by
  rfl

/-- C5 (amended): `DataSource.from_dict` performs no entity-count
validation; the `metadata` property raises an `IndexError` (not a
`SapClientException` metadata error) on zero entities, and on two or more
entities silently proceeds with the first entity's ordered columns. -/
theorem C5_theorem (ds : DataSourceModel) :
    (ds.ENTITIES = [] →
      dataSourceMetadata ds = .error "IndexError: list index out of range")
    ∧ ∀ e rest, ds.ENTITIES = e :: rest →
      dataSourceMetadata ds = .ok (getOrderedColumns e) := by
  obtain ⟨a, t, ty, pg, dl, E⟩ := ds
  cases E with
  | nil =>
    refine ⟨fun _ => rfl, fun e rest h => ?_⟩
    simp at h
  | cons e es =>
    refine ⟨fun h => by simp at h, fun e' rest h => ?_⟩
    simp only at h
    injection h with h1 h2
    subst h1
    rfl

/-- C5 witness: the amended theorem applied to an empty and a two-entity
descriptor. -/
theorem C5_witness :
    dataSourceMetadata { ENTITIES := [] }
      = .error "IndexError: list index out of range"
    ∧ dataSourceMetadata dsTwoEntities = .ok (getOrderedColumns entA) :=
  ⟨(C5_theorem { ENTITIES := [] }).1 rfl, (C5_theorem dsTwoEntities).2 entA [entB] rfl⟩

/-- C6: a batch response carrying a non-empty delta pointer is parsed first
as an integer, then as a float; if neither parse succeeds the request
raises the invalid-delta-pointer `SapClientException` (aborting the
session), and a successful parse is appended to the observed
`delta_values`. -/
theorem C6_theorem {V : Type} (st : ClientState) (r : Response V) (e : RespEntity V)
    (es : List (RespEntity V)) (s : String)
    (hE : r.ENTITIES = e :: es) (hD : e.DELTA_POINTER = some s) (hs : s ≠ "") :
    (pyParseInt s = none → pyParseFloat s = none →
      getAndProcess st r = .error ("Only integer and float " ++ s
        ++ " values are supported. " ++ "Delta pointer received: " ++ s))
    ∧ (∀ n, pyParseInt s = some n →
        ∃ st' b, getAndProcess st r = .ok (st', b)
          ∧ st'.delta_values = st.delta_values ++ [DeltaV.int n])
    ∧ (∀ q, pyParseInt s = none → pyParseFloat s = some q →
        ∃ st' b, getAndProcess st r = .ok (st', b)
          ∧ st'.delta_values = st.delta_values ++ [DeltaV.float q]) := by
  obtain ⟨E⟩ := r
  simp only at hE
  subst hE
  refine ⟨?_, ?_, ?_⟩
  · intro hI hF
    simp only [getAndProcess, setDeltaPointer, hD, if_neg hs, hI, hF]
  · intro n hI
    cases hR : e.ROWS with
    | nil =>
      refine ⟨{ st with delta_values := st.delta_values ++ [DeltaV.int n], stop := true },
        none, ?_, rfl⟩
      simp only [getAndProcess, setDeltaPointer, hD, if_neg hs, hI, hR]
    | cons row rows =>
      refine ⟨{ st with delta_values := st.delta_values ++ [DeltaV.int n] },
        some (processResult (row :: rows) (getColumns e.COLUMNS)), ?_, rfl⟩
      simp only [getAndProcess, setDeltaPointer, hD, if_neg hs, hI, hR]
  · intro q hI hF
    cases hR : e.ROWS with
    | nil =>
      refine ⟨{ st with delta_values := st.delta_values ++ [DeltaV.float q], stop := true },
        none, ?_, rfl⟩
      simp only [getAndProcess, setDeltaPointer, hD, if_neg hs, hI, hF, hR]
    | cons row rows =>
      refine ⟨{ st with delta_values := st.delta_values ++ [DeltaV.float q] },
        some (processResult (row :: rows) (getColumns e.COLUMNS)), ?_, rfl⟩
      simp only [getAndProcess, setDeltaPointer, hD, if_neg hs, hI, hF, hR]

/-- C6 witness: pointer `"20240101"` parses as an integer and is recorded. -/
theorem C6_witness :
    ∃ st' b, getAndProcess ⟨false, []⟩ wRespDelta = .ok (st', b)
      ∧ st'.delta_values = [] ++ [DeltaV.int 20240101] :=
  (C6_theorem ⟨false, []⟩ wRespDelta _ [] "20240101" rfl rfl (by decide)).2.1
    20240101 (by decide)

/-- C9: storing `None` or an empty batch writes nothing and raises no
error; storing with no destination configured writes nothing and raises no
error; a non-empty batch with a configured destination is appended as one
file whose name carries the fresh suffix, and distinct fresh suffixes give
distinct names, so two stores of one resource alias never collide. -/
theorem C9_theorem {V : Type} (destination name fresh : String)
    (results : Option (Batch V)) (files : List (String × Batch V)) :
    storeResults destination (none : Option (Batch V)) name fresh files = files
    ∧ storeResults destination (some ([] : Batch V)) name fresh files = files
    ∧ storeResults "" results name fresh files = files
    ∧ (∀ row rows, destination ≠ "" →
        storeResults destination (some (row :: rows)) name fresh files
          = files ++ [(outputFilename destination name fresh, row :: rows)])
    ∧ ∀ fresh' : String, fresh ≠ fresh' →
        outputFilename destination name fresh ≠ outputFilename destination name fresh' := by
  refine ⟨?_, ?_, ?_, ?_, ?_⟩
  · unfold storeResults
    split <;> rfl
  · unfold storeResults
    split <;> rfl
  · simp [storeResults]
  · intro row rows hd
    simp [storeResults, hd]
  · intro fresh' hne heq
    apply hne
    have hd := congrArg String.data heq
    simp only [outputFilename, String.data_append] at hd
    have h1 := List.append_cancel_right hd
    have h2 := List.append_cancel_left h1
    cases fresh with
    | mk lf =>
      cases fresh' with
      | mk lg => exact congrArg String.mk (by simpa using h2)

/-- C9 witness: the sink contract at concrete inputs. -/
theorem C9_witness :
    storeResults "/d" (none : Option (Batch Nat)) "R" "u1" [] = []
    ∧ storeResults "/d" (some ([] : Batch Nat)) "R" "u1" [] = []
    ∧ storeResults "" (some [[("ID", 1)]] : Option (Batch Nat)) "R" "u1" [] = []
    ∧ storeResults "/d" (some [[("ID", 1)]] : Option (Batch Nat)) "R" "u1" []
        = [] ++ [(outputFilename "/d" "R" "u1", [[("ID", 1)]])]
    ∧ outputFilename "/d" "R" "u1" ≠ outputFilename "/d" "R" "u2" :=
  ⟨(C9_theorem ("/d") "R" "u1" (some [[("ID", 1)]]) []).1,
   (C9_theorem ("/d") "R" "u1" (some [[("ID", 1)]]) []).2.1,
   (C9_theorem ("") "R" "u1" (some [[("ID", 1)]] : Option (Batch Nat)) []).2.2.1,
   (C9_theorem ("/d") "R" "u1" (some [[("ID", 1)]]) []).2.2.2.1 [("ID", 1)] [] (by decide),
   (C9_theorem ("/d") "R" "u1" (some ([[("ID", 1)]] : Batch Nat)) []).2.2.2.2 "u2" (by decide)⟩

/-- C10: with a truthy delta pointer, `fetch` always takes the single
full-request path (never a paging strategy, whatever the resource's paging
flag and the requested method, provided the resource supports delta), the
endpoint is the `$delta` endpoint, the `delta_pointer` param carries the
pointer, and the pointer is pre-seeded into `delta_values`, so
`max_delta_pointer` is never `None` in that mode. -/
theorem C10_theorem (delta : Option DeltaV) (resourceAlias pagingMethod : String)
    (dsPaging : Bool) (hd : deltaTruthy delta = true) :
    fetchDispatch delta resourceAlias true dsPaging pagingMethod = .ok .fullRequest
    ∧ getDataSourcesEndpoint delta resourceAlias
        = joinUrlParts ["DATA_SOURCES", resourceAlias, "$delta"]
    ∧ (∃ v, delta = some v ∧ initDeltaValues delta = [v]
        ∧ ∀ params, getRequestParams delta params = params ++ [("delta_pointer", v)])
    ∧ maxDeltaPointer (initDeltaValues delta) ≠ none := by
  cases delta with
  | none => simp [deltaTruthy] at hd
  | some v =>
    have hv : deltaTruthyV v = true := hd
    refine ⟨?_, ?_, ⟨v, rfl, ?_, ?_⟩, ?_⟩
    · simp [fetchDispatch, checkDeltaSupport, deltaTruthy, hv]
    · simp [getDataSourcesEndpoint, deltaTruthy, hv]
    · simp [initDeltaValues, hv]
    · intro params
      simp [getRequestParams, hv]
    · simp only [initDeltaValues, hv, if_pos rfl, maxDeltaPointer, maxTimestampOrId]
      intro h
      exact Option.noConfusion h

/-- C10 witness: a concrete truthy pointer. -/
theorem C10_witness :
    fetchDispatch (some (DeltaV.int 20230101)) "MARA" true true "key" = .ok .fullRequest
    ∧ getDataSourcesEndpoint (some (DeltaV.int 20230101)) "MARA"
        = joinUrlParts ["DATA_SOURCES", "MARA", "$delta"]
    ∧ (∃ v, some (DeltaV.int 20230101) = some v
        ∧ initDeltaValues (some (DeltaV.int 20230101)) = [v]
        ∧ ∀ params, getRequestParams (some (DeltaV.int 20230101)) params
            = params ++ [("delta_pointer", v)])
    ∧ maxDeltaPointer (initDeltaValues (some (DeltaV.int 20230101))) ≠ none :=
  C10_theorem (some (DeltaV.int 20230101)) "MARA" "key" true (by decide)

theorem runKeyBlocks_batches {V : Type} {resp : KeyBlock → Response V} {B : Nat} :
    ∀ {blocks : List KeyBlock} {st st' : ClientState} {tasks : List KeyBlock}
      {bs : List (Option (Batch V))},
    runKeyBlocks resp B blocks st tasks = .ok (st', bs) →
    bs = (tasks ++ blocks).map fun k => batchOf (resp k)
  | [], st, st', tasks, bs, h => by
    simp only [runKeyBlocks] at h
    by_cases ht : tasks.isEmpty
    · rw [if_pos ht] at h
      simp only [Except.ok.injEq, Prod.mk.injEq] at h
      rw [List.isEmpty_iff] at ht
      rw [← h.2, ht]
      simp
    · rw [if_neg ht] at h
      have hb := processRequests_batches h
      simpa using hb
  | b :: blocks, st, st', tasks, bs, h => by
    simp only [runKeyBlocks] at h
    by_cases hlen : (tasks ++ [b]).length = B
    · rw [if_pos hlen] at h
      cases hPR : processRequests resp st (tasks ++ [b]) with
      | error msg => simp only [hPR] at h; exact Except.noConfusion h
      | ok pr =>
        obtain ⟨st₁, rs⟩ := pr
        simp only [hPR] at h
        cases hRec : runKeyBlocks resp B blocks st₁ [] with
        | error msg => simp only [hRec] at h; exact Except.noConfusion h
        | ok pr₂ =>
          obtain ⟨st₂, rs'⟩ := pr₂
          simp only [hRec, Except.ok.injEq, Prod.mk.injEq] at h
          have e1 : rs = (tasks ++ [b]).map fun k => batchOf (resp k) :=
            processRequests_batches hPR
          have e2 : rs' = (([] : List KeyBlock) ++ blocks).map fun k => batchOf (resp k) :=
            runKeyBlocks_batches hRec
          rw [← h.2, e1, e2]
          simp [← List.map_append]
    · rw [if_neg hlen] at h
      have hb := runKeyBlocks_batches h
      rw [hb]
      simp

/-- C8: a key-block fetch whose partition request yields no blocks (missing
or empty `KEY_BLOCKS`) fails with the paging-unavailable
`SapClientException`, with no automatic fallback to offset paging; with
blocks present, each block is fetched by exactly one request carrying that
block's `KEY_MIN`/`KEY_MAX` (modelled by the response being a function of
the block), gathered in rounds of `batchSize` tasks, and with no
end-of-data detection: every block contributes its own result whatever the
other blocks return. -/
theorem C8_theorem {V : Type} (resp : KeyBlock → Response V) (B : Nat) (st : ClientState) :
    (∀ blocks, blocks = none ∨ blocks = some [] →
      fetchPagingKey blocks resp B st = .error "Unable to obtain key blocks.")
    ∧ ∀ blocks st' bs, fetchPagingKey (some blocks) resp B st = .ok (st', bs) →
        bs = blocks.map fun k => batchOf (resp k) := by
  constructor
  · rintro blocks (rfl | rfl) <;> rfl
  · intro blocks st' bs h
    cases blocks with
    | nil => exact Except.noConfusion h
    | cons b blocks =>
      have h' : runKeyBlocks resp B (b :: blocks) st [] = .ok (st', bs) := h
      have hb := runKeyBlocks_batches h'
      simpa using hb

/-- C8 witness: both halves of the claim at concrete inputs. -/
theorem C8_witness :
    fetchPagingKey (none : Option (List KeyBlock)) wRespKey 2 ⟨false, []⟩
      = .error "Unable to obtain key blocks."
    ∧ [some [[("ID", 7)]], some [[("ID", 7)]]]
        = [wBlock1, wBlock2].map fun k => batchOf (wRespKey k) :=
  ⟨(C8_theorem wRespKey 2 ⟨false, []⟩).1 none (Or.inl rfl),
   (C8_theorem wRespKey 2 ⟨false, []⟩).2 [wBlock1, wBlock2] ⟨false, []⟩
     [some [[("ID", 7)]], some [[("ID", 7)]]] (by rfl)⟩

/-- C2: when every page response contains an entity (an empty page being an
entity with zero rows) and some page's entity indeed has no rows, the
offset-paging fetch terminates: some round budget makes the loop finish,
so the produced sequence of row batches is finite. -/
theorem C2_theorem {V : Type} (responses : Nat → Response V) (B N : Nat)
    (dv : List DeltaV) (hB : 1 ≤ B) (hN : 1 ≤ N)
    (hent : ∀ p, (responses p).ENTITIES ≠ [])
    (hempty : emptyFirstEntity (responses N)) :
    ∃ fuel res, fetchPagingOffset responses B ⟨false, dv⟩ 0 fuel = some res := by
  have hmc : B * ((N - 1) / B) = ((N - 1) / B) * B := Nat.mul_comm _ _
  have hdm := Nat.div_add_mod (N - 1) B
  have heq : 1 + ((N - 1) / B) * B + (N - 1) % B = N := by omega
  have hi : (N - 1) % B < B := Nat.mod_lt _ (by omega)
  obtain ⟨res, hres⟩ := runOffsetRounds_terminates ((N - 1) / B) ⟨false, dv⟩ 1
    ⟨(N - 1) % B, hi, by rw [heq]; exact hempty⟩
  exact ⟨(N - 1) / B + 1, res, by simpa [fetchPagingOffset, startPage] using hres⟩

/-- C2 witness: three data pages then empty pages, batch size 2. -/
theorem C2_witness :
    ∃ fuel res, fetchPagingOffset wRespC2 2 ⟨false, []⟩ 0 fuel = some res :=
  C2_theorem wRespC2 2 4 [] (by decide) (by decide)
    (by
      intro p
      unfold wRespC2
      split
      · decide
      · decide)
    (by decide)

/-- C3: with a first empty page `N` (pages before it non-empty, pages from
`N` on empty — the end-of-data shape of a resource) and well-formed delta
pointers, offset paging stops right after the round containing page `N`:
every sufficient budget returns exactly the results of the rounds up to and
including that one; every page numerically at or beyond `N` contributes no
batch (`None`), and storing `None` writes nothing, so no row from beyond
the first empty page is emitted or stored. -/
theorem C3_theorem {V : Type} (responses : Nat → Response V) (B N : Nat)
    (dv : List DeltaV) (hB : 1 ≤ B) (hN : 1 ≤ N)
    (hok : ∀ p, responseDeltaOk (responses p) = true)
    (hmin : ∀ p, 1 ≤ p → p < N → ¬emptyFirstEntity (responses p))
    (hup : ∀ p, N ≤ p → emptyFirstEntity (responses p)) :
    (∃ st', ∀ fuel, (N - 1) / B + 1 ≤ fuel →
      fetchPagingOffset responses B ⟨false, dv⟩ 0 fuel
        = some (.ok (st', (List.range' 1 (((N - 1) / B + 1) * B)).map
            fun p => batchOf (responses p))))
    ∧ (∀ p, N ≤ p → batchOf (responses p) = none)
    ∧ ∀ (destination name fresh : String) (files : List (String × Batch V)),
        storeResults destination (none : Option (Batch V)) name fresh files = files := by
  refine ⟨?_, ?_, ?_⟩
  · have hmc : B * ((N - 1) / B) = ((N - 1) / B) * B := Nat.mul_comm _ _
    have hdm := Nat.div_add_mod (N - 1) B
    have heq : 1 + ((N - 1) / B) * B + (N - 1) % B = N := by omega
    have hi : (N - 1) % B < B := Nat.mod_lt _ (by omega)
    have hpre : ∀ p, 1 ≤ p → p < 1 + ((N - 1) / B) * B → ¬emptyFirstEntity (responses p) := by
      intro p h1 h2
      apply hmin p h1
      have hle : ((N - 1) / B) * B ≤ N - 1 := Nat.div_mul_le_self _ _
      omega
    obtain ⟨st', hst'⟩ := runOffsetRounds_exact hok ((N - 1) / B) ⟨false, dv⟩ 1 rfl hpre
      ⟨(N - 1) % B, hi, by rw [heq]; exact hup N (le_refl N)⟩
    exact ⟨st', fun fuel hf => by
      simpa [fetchPagingOffset, startPage] using hst' fuel hf⟩
  · intro p hp
    exact batchOf_eq_none_of_empty (hup p hp)
  · intro destination name fresh files
    unfold storeResults
    split <;> rfl

/-- C3 witness: one data page, empty from page 2 on, batch size 2. -/
theorem C3_witness :
    (∃ st', ∀ fuel, (2 - 1) / 2 + 1 ≤ fuel →
      fetchPagingOffset wRespC3 2 ⟨false, []⟩ 0 fuel
        = some (.ok (st', (List.range' 1 (((2 - 1) / 2 + 1) * 2)).map
            fun p => batchOf (wRespC3 p))))
    ∧ (∀ p, 2 ≤ p → batchOf (wRespC3 p) = none)
    ∧ ∀ (destination name fresh : String) (files : List (String × Batch Nat)),
        storeResults destination (none : Option (Batch Nat)) name fresh files = files :=
  C3_theorem wRespC3 2 2 [] (by decide) (by decide)
    (by
      intro p
      unfold wRespC3
      split
      · decide
      · decide)
    (by
      intro p h1 h2
      have hp : p = 1 := by omega
      subst hp
      decide)
    (by
      intro p hp
      unfold wRespC3
      rw [if_neg (by omega)]
      decide)

set_option maxRecDepth 400000 in
/-- C4: the CUSTOMERS scenario — 2,500 rows, `limit = 1000`,
`batchSize = 5`: the default page argument starts the first round at
page 1; for every sufficient round budget the run returns exactly the five
results of the first round (pages 1..5, which contains the first empty
page, 4) and then stops; storing those results stores exactly 3 non-empty
batches totaling 2,500 rows. -/
theorem C4_theorem (fuel : Nat) (hf : 1 ≤ fuel) :
    startPage 0 = 1
    ∧ fetchPagingOffset customersResponses 5 ⟨false, []⟩ 0 fuel
        = some (.ok (⟨true, []⟩, (List.range' 1 5).map
            fun p => batchOf (customersResponses p)))
    ∧ (storeAll "/data/out" "CUSTOMERS" (fun i => toString i)
        ((List.range' 1 5).map fun p => batchOf (customersResponses p)) 0 []).length = 3
    ∧ ((storeAll "/data/out" "CUSTOMERS" (fun i => toString i)
        ((List.range' 1 5).map fun p => batchOf (customersResponses p)) 0 []).map
          fun f => f.2.length).sum = 2500 := by
  refine ⟨rfl, ?_, by decide, by decide⟩
  obtain ⟨f, rfl⟩ : ∃ f, fuel = f + 1 := ⟨fuel - 1, by omega⟩
  have hPP : processRequests customersResponses ⟨false, []⟩ (List.range' 1 5)
      = .ok (⟨true, []⟩, (List.range' 1 5).map fun p => batchOf (customersResponses p)) := by
    rfl
  have h0 : runOffsetRounds customersResponses 5 ⟨true, []⟩ (1 + 5) f
      = some (.ok (⟨true, []⟩, [])) :=
    runOffsetRounds_stopped rfl (1 + 5) f
  have hstep : fetchPagingOffset customersResponses 5 ⟨false, []⟩ 0 (f + 1)
      = runOffsetRounds customersResponses 5 ⟨false, []⟩ 1 (f + 1) := rfl
  rw [hstep, runOffsetRounds_succ rfl]
  simp only [hPP, h0]
  simp

set_option maxRecDepth 400000 in
/-- C4 witness: the scenario at budget 1. -/
theorem C4_witness :
    startPage 0 = 1
    ∧ fetchPagingOffset customersResponses 5 ⟨false, []⟩ 0 1
        = some (.ok (⟨true, []⟩, (List.range' 1 5).map
            fun p => batchOf (customersResponses p)))
    ∧ (storeAll "/data/out" "CUSTOMERS" (fun i => toString i)
        ((List.range' 1 5).map fun p => batchOf (customersResponses p)) 0 []).length = 3
    ∧ ((storeAll "/data/out" "CUSTOMERS" (fun i => toString i)
        ((List.range' 1 5).map fun p => batchOf (customersResponses p)) 0 []).map
          fun f => f.2.length).sum = 2500 :=
  C4_theorem 1 (by decide)
